import Mathlib

namespace ScribeBot

/-!
Verification development for the ScribeBot medical-recording server.

The definitions below are shallow embeddings of the TypeScript sources:
`recording.service.ts` (chunk upload, chunk combination, folder deletion,
result retrieval), `transcription-processor.service.ts` (the job pipeline:
speaker-labelled transcript rendering, whitespace cleanup, staging keys,
fallback summarisation, cleanup-in-finally), and `cache.service.ts`
(failure-absorbing cache wrapper and the compare-and-delete lock release).
Strings are modelled by `String`/`List Char`, byte buffers by `List Nat`,
fallible external calls by `Except String`.
-/

/-! ### Decimal rendering of numbers

Models the JavaScript `n.toString()` (decimal) used for chunk numbers and
`Date.now()` timestamps.  A fuel argument keeps the recursion structural so
that the kernel can evaluate it. -/

/-- Decimal digit characters of `n`, most significant first; `fuel` bounds
the recursion depth and is always supplied as `n + 1`, which is sufficient. -/
def natDigitsAux : Nat → Nat → List Char
  | 0, _ => []
  | fuel + 1, n =>
    if n < 10 then [Nat.digitChar n]
    else natDigitsAux fuel (n / 10) ++ [Nat.digitChar (n % 10)]

/-- Decimal digit characters of `n`, most significant first. -/
def natDigits (n : Nat) : List Char := natDigitsAux (n + 1) n

/-- Decimal rendering of `n` as a string (JavaScript `n.toString()`). -/
def natToString (n : Nat) : String := ⟨natDigits n⟩

/-! ### Chunk file naming and alphabetical listing (C1)

`processAudioChunk` stores chunk `n` under the name
`chunk-${n.toString().padStart(3, '0')}.wav`; `stopRecording` lists the
chunk files with `orderBy: 'name'` (alphabetical) and concatenates their
payloads in that order. -/

/-- `String.prototype.padStart(3, '0')` at the character-list level. -/
def pad3 (l : List Char) : List Char := List.replicate (3 - l.length) '0' ++ l

/-- The stored file name for chunk number `n`. -/
def chunkNameChars (n : Nat) : List Char :=
  "chunk-".data ++ pad3 (natDigits n) ++ ".wav".data

/-- Lexicographic (alphabetical) comparison of character lists, modelling the
Drive `orderBy: 'name'` listing order. -/
def lexLe : List Char → List Char → Bool
  | [], _ => true
  | _ :: _, [] => false
  | a :: as, b :: bs => if a < b then true else if b < a then false else lexLe as bs

/-- One uploaded audio chunk: caller-supplied sequence number and payload. -/
structure Chunk where
  seq : Nat
  payload : List Nat
deriving DecidableEq

/-- Chunks ordered by their stored file name (the order the combiner sees). -/
def nameLe (a b : Chunk) : Prop :=
  lexLe (chunkNameChars a.seq) (chunkNameChars b.seq) = true

instance : DecidableRel nameLe := fun a b =>
  instDecidableEqBool (lexLe (chunkNameChars a.seq) (chunkNameChars b.seq)) true

/-- Chunks ordered by sequence number (the spec's intended order). -/
def seqLe (a b : Chunk) : Prop := a.seq ≤ b.seq

instance : DecidableRel seqLe := fun a b => Nat.decLe a.seq b.seq

/-- The combined audio produced by `stopRecording`: chunk payloads
concatenated in alphabetical order of their stored names. -/
def combineChunks (stored : List Chunk) : List Nat :=
  ((List.insertionSort nameLe stored).map Chunk.payload).flatten

/-- Concatenation of the payloads ordered by sequence number ascending
(the spec-side description of the combined audio). -/
def combineBySeq (chunks : List Chunk) : List Nat :=
  ((List.insertionSort seqLe chunks).map Chunk.payload).flatten

/-! ### Speaker-labelled transcript rendering and whitespace cleanup (C2, C5)

`transcribeAudioWithMedicalContext` walks the recognition results word by
word, emitting `Doctor: ` when the speaker tag is 1 and `Patient: ` for any
other tag whenever the tag changes (a tag of 0 models a falsy/absent
`word.speakerTag` and never triggers a label), then appends a newline after
every result, and finally applies
`.replace(/\s+/g, ' ').replace(/\n\s*\n/g, '\n').trim()`. -/

/-- One word token of the diarized recognition output. -/
structure Word where
  word : String
  speakerTag : Nat
deriving DecidableEq

/-- `word.speakerTag === 1 ? 'Doctor' : 'Patient'`. -/
def spkLabel (tag : Nat) : String := if tag = 1 then "Doctor" else "Patient"

/-- The per-word loop: threads the accumulated transcript and the current
speaker, and records each emitted label (third component). -/
def buildWordsAux : Option Nat → String → List String → List Word →
    String × Option Nat × List String
  | cur, acc, labs, [] => (acc, cur, labs)
  | cur, acc, labs, w :: ws =>
    if w.speakerTag ≠ 0 ∧ some w.speakerTag ≠ cur then
      buildWordsAux (some w.speakerTag)
        (acc ++ (match cur with | none => "" | some _ => "\n") ++ spkLabel w.speakerTag
          ++ ": " ++ w.word ++ " ")
        (labs ++ [spkLabel w.speakerTag]) ws
    else
      buildWordsAux cur (acc ++ w.word ++ " ") labs ws

/-- One element of `response.results` (its top alternative's word list). -/
structure SpeechResult where
  words : List Word
deriving DecidableEq

/-- The per-result loop: a newline is appended after each result that
contains words; the current speaker persists across results. -/
def buildResultsAux : Option Nat → String → List String → List SpeechResult →
    String × Option Nat × List String
  | cur, acc, labs, [] => (acc, cur, labs)
  | cur, acc, labs, r :: rs =>
    let s := buildWordsAux cur acc labs r.words
    buildResultsAux s.2.1 (if r.words.isEmpty then s.1 else s.1 ++ "\n") s.2.2 rs

/-- The transcript before the final cleanup. -/
def rawTranscript (results : List SpeechResult) : String :=
  (buildResultsAux none "" [] results).1

/-- JavaScript `\s` on the ASCII range: space, tab, newline, carriage
return, vertical tab, form feed. -/
def isWsChar (c : Char) : Bool :=
  c = ' ' || c = '\t' || c = '\n' || c = '\r' || c = '\x0b' || c = '\x0c'

/-- `.replace(/\s+/g, ' ')`: every maximal whitespace run becomes one
space. -/
def collapseWs : List Char → List Char
  | [] => []
  | [c] => if isWsChar c then [' '] else [c]
  | a :: b :: rest =>
    if isWsChar a && isWsChar b then collapseWs (b :: rest)
    else (if isWsChar a then ' ' else a) :: collapseWs (b :: rest)

/-- After a leading `\n` was consumed, match the greedy `\s*\n` part of
`/\n\s*\n/`: returns the suffix after the last `\n` of the maximal
whitespace run, if that run contains one. -/
def afterLastNl : List Char → Option (List Char)
  | [] => none
  | c :: cs =>
    if isWsChar c then
      match afterLastNl cs with
      | some r => some r
      | none => if c = '\n' then some cs else none
    else none

/-- `.replace(/\n\s*\n/g, '\n')` with explicit fuel (each step consumes at
least one character, so `fuel = length` suffices). -/
def replaceNlRunsAux : Nat → List Char → List Char
  | 0, l => l
  | _ + 1, [] => []
  | fuel + 1, c :: cs =>
    if c = '\n' then
      match afterLastNl cs with
      | some rest => '\n' :: replaceNlRunsAux fuel rest
      | none => c :: replaceNlRunsAux fuel cs
    else c :: replaceNlRunsAux fuel cs

def replaceNlRuns (l : List Char) : List Char := replaceNlRunsAux l.length l

/-- `.trim()`: strip whitespace from both ends. -/
def trimChars (l : List Char) : List Char :=
  ((l.dropWhile isWsChar).reverse.dropWhile isWsChar).reverse

/-- The transcript cleanup
`.replace(/\s+/g, ' ').replace(/\n\s*\n/g, '\n').trim()`. -/
def cleanTranscript (s : String) : String :=
  ⟨trimChars (replaceNlRuns (collapseWs s.data))⟩

/-- The fully rendered transcript returned by the transcription stage. -/
def transcriptOfResults (results : List SpeechResult) : String :=
  cleanTranscript (rawTranscript results)

/-- The speaker labels emitted while rendering a word sequence. -/
def emittedLabels (ws : List Word) : List String :=
  (buildWordsAux none "" [] ws).2.2

/-- Spec-side description: heads of the contiguous runs of equal tags that
follow a run headed by `t`. -/
def runHeadsFrom (t : Nat) : List Nat → List Nat
  | [] => []
  | b :: l => if b = t then runHeadsFrom t l else b :: runHeadsFrom b l

/-- Spec-side description: one entry per contiguous run of equal tags. -/
def runHeads : List Nat → List Nat
  | [] => []
  | t :: ts => t :: runHeadsFrom t ts

/-! ### Fallback summarisation (C3)

`generateMedicalSummary` calls the generative model; on any failure it
falls back to `generateFallbackSummary`, a rule-based keyword extractor;
if even the fallback were to fail, a fixed message is returned.  The
generative call's outcome is a parameter of the embedding. -/

/-- `.`, `!` or `?` (the class `[.!?]` of the sentence-splitting regex). -/
def isPunctChar (c : Char) : Bool := c = '.' || c = '!' || c = '?'

/-- `transcript.split(/[.!?]\s/)`: split on punctuation followed by one
whitespace character, both consumed.  Fuel is the input length. -/
def splitSentAux : Nat → List Char → List Char → List (List Char)
  | 0, acc, rest => [acc.reverse ++ rest]
  | _ + 1, acc, [] => [acc.reverse]
  | fuel + 1, acc, c :: cs =>
    match cs with
    | d :: rest =>
      if isPunctChar c && isWsChar d then acc.reverse :: splitSentAux fuel [] rest
      else splitSentAux fuel (c :: acc) cs
    | [] => [(c :: acc).reverse]

def splitSentences (l : List Char) : List (List Char) := splitSentAux l.length [] l

/-- `hay.includes(needle)` (substring test). -/
def containsSub (needle : List Char) : List Char → Bool
  | [] => needle.isEmpty
  | c :: rest => needle.isPrefixOf (c :: rest) || containsSub needle rest

/-- ASCII-range model of `toLowerCase()`. -/
def toLowerChars (l : List Char) : List Char := l.map Char.toLower

/-- `extractSection`: sentences longer than 10 characters that contain one
of the keywords (case-insensitively), joined with `. `. -/
def extractSection (transcript : String) (keywords : List String) : String :=
  let sentences := (splitSentences transcript.data).filter (fun s => s.length > 10)
  let matching := sentences.filter (fun s =>
    keywords.any (fun k => containsSub (toLowerChars k.data) (toLowerChars s)))
  ⟨List.intercalate ". ".data matching⟩

/-- The three sections of the rule-based fallback, in `Object.entries`
order, with their keyword sets. -/
def fallbackSections (transcript : String) : List (String × String) :=
  [("Chief Complaint",
      extractSection transcript ["chief complaint", "reason for visit", "what brings you"]),
   ("Assessment", extractSection transcript ["assessment", "diagnosis", "condition"]),
   ("Plan", extractSection transcript ["plan", "recommendation", "follow up", "prescription"])]

/-- `generateFallbackSummary`: header plus one `## title` block per section,
with `Not specified` for an empty extraction (`content || 'Not specified'`). -/
def generateFallbackSummary (transcript : String) : String :=
  (fallbackSections transcript).foldl
    (fun acc p =>
      acc ++ ("## " ++ p.1 ++ "\n" ++ (if p.2 = "" then "Not specified" else p.2) ++ "\n\n"))
    "# Medical Consultation Summary\n\n"

/-- The message returned when even the fallback fails. -/
def failedSummaryMessage : String :=
  "Summary generation failed. Please review the transcript directly."

/-- `generateMedicalSummary`: the generative result on success; on failure
the fallback, guarded by a second catch returning the fixed message.  (In
the source the fallback is pure string manipulation and cannot actually
throw; `fallbackFails` models the guarded branch.) -/
def generateMedicalSummary (transcript : String) (vertexRes : Except String String)
    (fallbackFails : Bool) : String :=
  match vertexRes with
  | .ok s => s
  | .error _ =>
    if fallbackFails then failedSummaryMessage else generateFallbackSummary transcript

/-- `sub` occurs as a substring of `s`. -/
def containsStr (s sub : String) : Prop := ∃ pre post : String, s = pre ++ sub ++ post

/-! ### The pipeline and cleanup-in-finally (C4)

`processTranscription` runs the stages in order; the transcription stage
deletes its staging object in a `finally` block whose own failure is only
logged; `cleanupTempFiles` and the cache write also absorb their failures.
External outcomes are inputs; the bucket and temp-directory states are
threaded explicitly. -/

/-- Deleting the staging object; a failing delete is caught and logged, so
the bucket is left unchanged. -/
def gcsDelete (gcs : List String) (fileName : String) (fails : Bool) : List String :=
  if fails then gcs else gcs.filter (fun o => o != fileName)

/-- The `try` body of `transcribeAudioWithMedicalContext`: the speech API
outcome, the empty-results guard, and the transcript rendering. -/
def transcribeBody (apiRes : Except String (List SpeechResult)) : Except String String :=
  match apiRes with
  | .error e => .error ("Transcription failed: " ++ e)
  | .ok results =>
    if results.isEmpty then .error "Transcription failed: No transcription results returned"
    else .ok (transcriptOfResults results)

/-- `transcribeAudioWithMedicalContext`: body in `try`, staging delete in
`finally`, so the delete runs on every exit path and its failure never
alters the returned value. -/
def transcribeAudioWithMedicalContext (gcs : List String) (fileName : String)
    (apiRes : Except String (List SpeechResult)) (deleteFails : Bool) :
    Except String String × List String :=
  (transcribeBody apiRes, gcsDelete gcs fileName deleteFails)

/-- `cleanupTempFiles`: unlink if the file exists; failures are caught and
logged, leaving the file in place. -/
def cleanupTempFiles (files : List String) (filePath : String) (fails : Bool) : List String :=
  if files.contains filePath then
    (if fails then files else files.filter (fun f => f != filePath))
  else files

/-- `CacheService.set`: the client call in `try`, any failure swallowed. -/
def cacheSet (clientRes : Except String Unit) : Except String Unit :=
  match clientRes with
  | .ok _ => .ok ()
  | .error _ => .ok ()

/-- Outcomes of the pipeline's external calls, plus the cleanup-failure
switches. -/
structure PipeEnv where
  fetchRes : Except String (List Nat)
  optimizeRes : Except String String
  uploadRes : Except String Unit
  speechRes : Except String (List SpeechResult)
  vertexRes : Except String String
  fallbackFails : Bool
  saveRes : Except String Unit
  localDeleteFails : Bool
  gcsDeleteFails : Bool
  cacheClientRes : Except String Unit

/-- `processTranscription`: fetch, optimise, upload, transcribe (with its
`finally` delete), summarise, save, local cleanup, cache.  Returns the
caller-visible result, the bucket state and the temp-directory state. -/
def processTranscription (env : PipeEnv) (gcs : List String) (stagingName : String)
    (localFiles : List String) :
    Except String (String × String) × List String × List String :=
  match env.fetchRes with
  | .error e => (.error e, gcs, localFiles)
  | .ok _ =>
    match env.optimizeRes with
    | .error e => (.error e, gcs, localFiles)
    | .ok optimizedPath =>
      match env.uploadRes with
      | .error e => (.error e, gcs, localFiles)
      | .ok _ =>
        let tr := transcribeAudioWithMedicalContext gcs stagingName env.speechRes
          env.gcsDeleteFails
        match tr.1 with
        | .error e => (.error e, tr.2, localFiles)
        | .ok transcript =>
          let summary := generateMedicalSummary transcript env.vertexRes env.fallbackFails
          match env.saveRes with
          | .error e => (.error e, tr.2, localFiles)
          | .ok _ =>
            let localFiles' := cleanupTempFiles localFiles optimizedPath env.localDeleteFails
            match cacheSet env.cacheClientRes with
            | .ok _ => (.ok (transcript, summary), tr.2, localFiles')
            | .error e => (.error e, tr.2, localFiles')

/-! ### The folder-delete guard (C6)

`deleteFolder` first fetches the object's `mimeType`; anything that is not
a folder is refused with a logged warning, and any error in the method is
caught (it is cleanup). -/

def folderMime : String := "application/vnd.google-apps.folder"

/-- A stored Drive object. -/
structure DObj where
  id : String
  mimeType : String
deriving DecidableEq

/-- `drive.files.get({fileId})` against the modelled store. -/
def filesGet (st : List DObj) (fileId : String) : Option DObj :=
  st.find? (fun o => o.id == fileId)

/-- `deleteFolder`: type-check guard, then delete.  The Bool records
whether the delete call was issued; a missing object models the `get`
throwing, which the surrounding catch absorbs. -/
def deleteFolder (st : List DObj) (folderId : String) : List DObj × Bool :=
  match filesGet st folderId with
  | none => (st, false)
  | some o =>
    if o.mimeType ≠ folderMime then (st, false)
    else (st.filter (fun x => x.id != folderId), true)

/-! ### Staging-key uniqueness (C7)

`uploadToGCS` names the staging object
`transcription-${recordingId}-${Date.now()}.flac`. -/

/-- The staging object key. -/
def stagingKey (recordingId : String) (timestamp : Nat) : String :=
  "transcription-" ++ recordingId ++ "-" ++ natToString timestamp ++ ".flac"

/-- Decimal value of a digit string (used only to invert `natDigits`). -/
def valOfDigits (l : List Char) : Nat :=
  l.foldl (fun acc c => acc * 10 + (c.toNat - 48)) 0

/-! ### Cache operations degrade to misses (C8)

Every `CacheService` method wraps its Redis call in `try`/`catch` and
returns a miss-like value on failure.  Each method is modelled over the
outcome of its underlying client call; values are the stored strings, and
`JSON.parse` is an outcome-valued parameter. -/

/-- `get`: `null`/empty values and any failure (including a parse failure)
become `null`. -/
def cacheGet (clientRes : Except String (Option String))
    (parse : String → Except String String) : Except String (Option String) :=
  match clientRes with
  | .error _ => .ok none
  | .ok none => .ok none
  | .ok (some v) =>
    if v = "" then .ok none
    else
      match parse v with
      | .ok x => .ok (some x)
      | .error _ => .ok none

/-- `delete`: failure swallowed. -/
def cacheDelete (clientRes : Except String Unit) : Except String Unit :=
  match clientRes with
  | .ok _ => .ok ()
  | .error _ => .ok ()

/-- `deletePattern`: `keys` then `del` when any matched, failures
swallowed. -/
def cacheDeletePattern (keysRes : Except String (List String))
    (delRes : Except String Unit) : Except String Unit :=
  match keysRes with
  | .error _ => .ok ()
  | .ok keys =>
    if keys.isEmpty then .ok ()
    else
      match delRes with
      | .ok _ => .ok ()
      | .error _ => .ok ()

/-- `increment`: the new counter value, or 0 on failure. -/
def cacheIncrement (clientRes : Except String Int) : Except String Int :=
  match clientRes with
  | .ok n => .ok n
  | .error _ => .ok 0

/-- `setNX`: whether the reply was `'OK'`; false on failure. -/
def setNX (clientRes : Except String (Option String)) : Except String Bool :=
  match clientRes with
  | .ok r => .ok (r == some "OK")
  | .error _ => .ok false

/-- `getOrSet`: cached value if present, else run the factory and cache
its value. -/
def getOrSet (getClientRes : Except String (Option String))
    (parse : String → Except String String)
    (factory : Except String String) (setClientRes : Except String Unit) :
    Except String String :=
  match cacheGet getClientRes parse with
  | .ok (some v) => .ok v
  | .ok none =>
    match factory with
    | .error e => .error e
    | .ok v =>
      match cacheSet setClientRes with
      | .ok _ => .ok v
      | .error e => .error e
  | .error e => .error e

/-! ### Lock release by compare-and-delete (C9)

`releaseLock` runs a Lua script that deletes `lock:{name}` only when its
current value equals the caller's lock id. -/

/-- Redis `get` on an association-list store. -/
def redisGet (st : List (String × String)) (k : String) : Option String :=
  (st.find? (fun kv => kv.1 == k)).map (fun kv => kv.2)

/-- Redis `del`. -/
def redisDel (st : List (String × String)) (k : String) : List (String × String) :=
  st.filter (fun kv => kv.1 != k)

/-- The script `if get(KEYS[1]) == ARGV[1] then return del(KEYS[1]) else
return 0`. -/
def releaseScript (st : List (String × String)) (key arg : String) :
    List (String × String) × Nat :=
  match redisGet st key with
  | some v => if v = arg then (redisDel st key, 1) else (st, 0)
  | none => (st, 0)

/-- `releaseLock`: run the script on `lock:{lockName}` and report whether
the reply was 1. -/
def releaseLock (st : List (String × String)) (lockName lockId : String) :
    List (String × String) × Bool :=
  ((releaseScript st ("lock:" ++ lockName) lockId).1,
   (releaseScript st ("lock:" ++ lockName) lockId).2 == 1)

/-! ### Result retrieval never yields two empty artifacts (C10)

`getRecordingResults` gathers patient info, the audio file id, the newest
transcript/summary pair from the `results` folder (longest file name), and
legacy top-level files; if both artifacts end up empty it throws `Results
not found`, which the outer handler re-wraps as `Failed to retrieve
results`. -/

/-- A Drive file as this endpoint sees it. -/
structure DFile where
  id : String
  name : String
  mimeType : String
  content : String
deriving DecidableEq

/-- The value assembled by `getRecordingResults`. -/
structure RecResult where
  transcript : String
  summary : String
  patientInfo : Option String
  audioFileId : Option String
deriving DecidableEq

/-- `name.endsWith(suffix)`. -/
def strEndsWith (l suffix : List Char) : Bool :=
  suffix.reverse.isPrefixOf l.reverse

/-- Keep the file with the strictly longer name (first seen wins ties). -/
def pickLonger : Option DFile → DFile → Option DFile
  | none, f => some f
  | some g, f => if f.name.length > g.name.length then some f else some g

/-- One pass over the `results` folder choosing the latest transcript and
summary `.txt` files by name length. -/
def pickResultFiles (resultFiles : List DFile) : Option DFile × Option DFile :=
  resultFiles.foldl
    (fun p f =>
      if containsSub "transcript".data f.name.data && strEndsWith f.name.data ".txt".data then
        (pickLonger p.1 f, p.2)
      else if containsSub "summary".data f.name.data && strEndsWith f.name.data ".txt".data then
        (p.1, pickLonger p.2 f)
      else p)
    (none, none)

/-- The body of the inner `try`: metadata, audio id, results-folder pair,
then the legacy top-level files for whichever artifact is still empty. -/
def gRRBody (children resultsChildren audioChildren : List DFile) : RecResult :=
  let patientInfo := (children.find? (fun f => f.name == "session-info.json")).map DFile.content
  let audioFolder := children.find? (fun f => f.name == "audio" && f.mimeType == folderMime)
  let audioFileId :=
    match audioFolder with
    | some _ =>
      (audioChildren.find? (fun f => containsSub "complete-recording".data f.name.data)).map
        DFile.id
    | none => none
  let resultsFolder := children.find? (fun f => f.name == "results" && f.mimeType == folderMime)
  let picked :=
    match resultsFolder with
    | some _ => pickResultFiles resultsChildren
    | none => (none, none)
  let t0 := match picked.1 with | some f => f.content | none => ""
  let s0 := match picked.2 with | some f => f.content | none => ""
  let t1 :=
    if t0 = "" then
      match children.find? (fun f => f.name == "transcript.txt") with
      | some f => f.content
      | none => t0
    else t0
  let s1 :=
    if s0 = "" then
      match children.find? (fun f => f.name == "summary.txt") with
      | some f => f.content
      | none => s0
    else s0
  ⟨t1, s1, patientInfo, audioFileId⟩

/-- The final guard: both artifacts empty is an error. -/
def checkResults (r : RecResult) : Except String RecResult :=
  if r.transcript = "" ∧ r.summary = "" then .error "Results not found" else .ok r

/-- The inner `try` of `getRecordingResults`; `innerFail` models a failure
of the retrieval block, which the inner catch absorbs leaving the initial
empty results. -/
def getRecordingResultsTry (children resultsChildren audioChildren : List DFile)
    (innerFail : Bool) : Except String RecResult :=
  checkResults
    (if innerFail then RecResult.mk "" "" none none
     else gRRBody children resultsChildren audioChildren)

/-- `getRecordingResults`: the outer catch re-wraps every error. -/
def getRecordingResults (children resultsChildren audioChildren : List DFile)
    (innerFail : Bool) : Except String RecResult :=
  match getRecordingResultsTry children resultsChildren audioChildren innerFail with
  | .ok r => .ok r
  | .error _ => .error "Failed to retrieve results"

/-! ## Properties and proofs -/

theorem natDigitsAux_small (fuel n : Nat) (hf : 1 ≤ fuel) (hn : n < 10) :
    natDigitsAux fuel n = [Nat.digitChar n] := by
  match fuel, hf with
  | f + 1, _ => simp [natDigitsAux, hn]

theorem natDigitsAux_step (fuel n : Nat) (hn : ¬ n < 10) :
    natDigitsAux (fuel + 1) n = natDigitsAux fuel (n / 10) ++ [Nat.digitChar (n % 10)] := by
  simp [natDigitsAux, hn]

theorem lexLe_refl : ∀ l : List Char, lexLe l l = true
  | [] => rfl
  | a :: as => by simp [lexLe, lexLe_refl as]

theorem lexLe_total : ∀ x y : List Char, lexLe x y = true ∨ lexLe y x = true
  | [], _ => Or.inl rfl
  | _ :: _, [] => Or.inr rfl
  | a :: as, b :: bs => by
    rcases lt_trichotomy a b with h | h | h
    · exact Or.inl (by simp [lexLe, h])
    · subst h
      rcases lexLe_total as bs with h' | h'
      · exact Or.inl (by simp [lexLe, h'])
      · exact Or.inr (by simp [lexLe, h'])
    · exact Or.inr (by simp [lexLe, h])

theorem lexLe_trans : ∀ x y z : List Char,
    lexLe x y = true → lexLe y z = true → lexLe x z = true
  | [], _, _, _, _ => rfl
  | _ :: _, [], _, h, _ => by simp [lexLe] at h
  | _ :: _, _ :: _, [], _, h => by simp [lexLe] at h
  | a :: as, b :: bs, c :: cs, h1, h2 => by
    simp only [lexLe] at h1 h2 ⊢
    rcases lt_trichotomy a b with hab | hab | hab
    · rw [if_pos hab] at h1
      rcases lt_trichotomy b c with hbc | hbc | hbc
      · rw [if_pos (lt_trans hab hbc)]
      · subst hbc; rw [if_pos hab]
      · rw [if_neg (lt_asymm hbc), if_pos hbc] at h2; exact absurd h2 (by simp)
    · subst hab
      rw [if_neg (lt_irrefl a), if_neg (lt_irrefl a)] at h1
      rcases lt_trichotomy a c with hac | hac | hac
      · rw [if_pos hac]
      · subst hac
        rw [if_neg (lt_irrefl a), if_neg (lt_irrefl a)] at h2 ⊢
        exact lexLe_trans as bs cs h1 h2
      · rw [if_neg (lt_asymm hac), if_pos hac] at h2; exact absurd h2 (by simp)
    · rw [if_neg (lt_asymm hab), if_pos hab] at h1; exact absurd h1 (by simp)

instance : IsTotal Chunk nameLe :=
  ⟨fun a b => lexLe_total (chunkNameChars a.seq) (chunkNameChars b.seq)⟩

instance : IsTrans Chunk nameLe :=
  ⟨fun _ _ _ h1 h2 => lexLe_trans _ _ _ h1 h2⟩

instance : IsTotal Chunk seqLe := ⟨fun a b => Nat.le_total a.seq b.seq⟩

instance : IsTrans Chunk seqLe := ⟨fun _ _ _ h1 h2 => Nat.le_trans h1 h2⟩

theorem lexLe_append_left : ∀ p x y : List Char, lexLe (p ++ x) (p ++ y) = lexLe x y
  | [], _, _ => rfl
  | c :: p, x, y => by simp [lexLe, lexLe_append_left p x y]

theorem lexLe_cons_iff (x y : Char) (xs ys : List Char) :
    lexLe (x :: xs) (y :: ys) = true ↔ (x < y ∨ (x = y ∧ lexLe xs ys = true)) := by
  rcases lt_trichotomy x y with h | h | h
  · simp [lexLe, h]
  · subst h; simp [lexLe]
  · simp [lexLe, lt_asymm h, h, ne_of_gt h]

theorem digitChar_lt_iff :
    ∀ i < 10, ∀ j < 10, (Nat.digitChar i < Nat.digitChar j ↔ i < j) := by decide

theorem digitChar_eq_iff :
    ∀ i < 10, ∀ j < 10, (Nat.digitChar i = Nat.digitChar j ↔ i = j) := by decide

theorem pad3_natDigits (n : Nat) (hn : n < 1000) :
    pad3 (natDigits n) =
      [Nat.digitChar (n / 100), Nat.digitChar (n / 10 % 10), Nat.digitChar (n % 10)] := by
  by_cases h1 : n < 10
  · have hd : natDigits n = [Nat.digitChar n] :=
      natDigitsAux_small (n + 1) n (by omega) h1
    have e1 : n / 100 = 0 := by omega
    have e2 : n / 10 % 10 = 0 := by omega
    have e3 : n % 10 = n := by omega
    rw [hd, e1, e2, e3]
    rw [show Nat.digitChar 0 = '0' from by decide]
    simp [pad3, List.replicate]
  · by_cases h2 : n < 100
    · have hd : natDigits n = [Nat.digitChar (n / 10), Nat.digitChar (n % 10)] := by
        rw [natDigits, natDigitsAux_step n n h1,
          natDigitsAux_small n (n / 10) (by omega) (by omega)]
        rfl
      have e1 : n / 100 = 0 := by omega
      have e2 : n / 10 % 10 = n / 10 := by omega
      rw [hd, e1, e2]
      rw [show Nat.digitChar 0 = '0' from by decide]
      simp [pad3, List.replicate]
    · have hstep1 : natDigits n = natDigitsAux n (n / 10) ++ [Nat.digitChar (n % 10)] :=
        natDigitsAux_step n n h1
      have hstep2 : natDigitsAux (n - 1 + 1) (n / 10)
          = natDigitsAux (n - 1) (n / 10 / 10) ++ [Nat.digitChar (n / 10 % 10)] :=
        natDigitsAux_step (n - 1) (n / 10) (by omega)
      rw [show n - 1 + 1 = n from by omega] at hstep2
      rw [show n / 10 / 10 = n / 100 from by omega] at hstep2
      have hsmall : natDigitsAux (n - 1) (n / 100) = [Nat.digitChar (n / 100)] :=
        natDigitsAux_small (n - 1) (n / 100) (by omega) (by omega)
      have hd : natDigits n =
          [Nat.digitChar (n / 100), Nat.digitChar (n / 10 % 10), Nat.digitChar (n % 10)] := by
        rw [hstep1, hstep2, hsmall]; rfl
      rw [hd]
      simp [pad3]

theorem chunkName_le_iff (a b : Nat) (ha : a < 1000) (hb : b < 1000) :
    (lexLe (chunkNameChars a) (chunkNameChars b) = true) ↔ a ≤ b := by
  unfold chunkNameChars
  rw [pad3_natDigits a ha, pad3_natDigits b hb]
  simp only [List.append_assoc]
  rw [lexLe_append_left]
  simp only [List.cons_append, List.nil_append]
  rw [lexLe_cons_iff, lexLe_cons_iff, lexLe_cons_iff]
  rw [digitChar_lt_iff _ (by omega) _ (by omega), digitChar_eq_iff _ (by omega) _ (by omega),
    digitChar_lt_iff _ (by omega) _ (by omega), digitChar_eq_iff _ (by omega) _ (by omega),
    digitChar_lt_iff _ (by omega) _ (by omega), digitChar_eq_iff _ (by omega) _ (by omega)]
  rw [show lexLe ".wav".data ".wav".data = true from lexLe_refl _]
  have hda : a / 10 / 10 = a / 100 := by omega
  have hdb : b / 10 / 10 = b / 100 := by omega
  constructor
  · rintro (h | ⟨h2, h | ⟨h1, h | h⟩⟩) <;> omega
  · intro h
    rcases Nat.lt_trichotomy (a / 100) (b / 100) with h2 | h2 | h2
    · exact Or.inl h2
    · rcases Nat.lt_trichotomy (a / 10 % 10) (b / 10 % 10) with g1 | g1 | g1
      · exact Or.inr ⟨h2, Or.inl g1⟩
      · rcases Nat.lt_trichotomy (a % 10) (b % 10) with g0 | g0 | g0
        · exact Or.inr ⟨h2, Or.inr ⟨g1, Or.inl g0⟩⟩
        · exact Or.inr ⟨h2, Or.inr ⟨g1, Or.inr ⟨g0, rfl⟩⟩⟩
        · omega
      · omega
    · omega

/-- Claim C1, counterexample: with sequence numbers 999 and 1000 the
alphabetical listing of `chunk-999.wav` and `chunk-1000.wav` inverts the
numeric order, so the combined audio is not the concatenation by ascending
sequence number. -/
theorem combineChunks_seq_order_cex :
    combineChunks [⟨999, [1]⟩, ⟨1000, [2]⟩] = [2, 1] ∧
    combineBySeq [⟨999, [1]⟩, ⟨1000, [2]⟩] = [1, 2] ∧
    combineChunks [⟨999, [1]⟩, ⟨1000, [2]⟩] ≠ combineBySeq [⟨999, [1]⟩, ⟨1000, [2]⟩] :=
  ⟨by decide, by decide, by decide⟩

/-- Claim C1 (amended): for chunks with pairwise-distinct sequence numbers
all below 1000 (so that the zero-padded names sort numerically), the
combined audio equals the concatenation of payloads by ascending sequence
number, for every arrival order of the chunks. -/
theorem combineChunks_amended (l l' : List Chunk) (hperm : l'.Perm l)
    (hnodup : (l.map Chunk.seq).Nodup) (hbound : ∀ c ∈ l, c.seq < 1000) :
    combineChunks l' = combineBySeq l := by
  have hseqne : l.Pairwise (fun a b : Chunk => a.seq ≠ b.seq) := List.pairwise_map.mp hnodup
  have p1 : (List.insertionSort nameLe l').Perm l' := List.perm_insertionSort _ _
  have p2 : (List.insertionSort seqLe l).Perm l := List.perm_insertionSort _ _
  have p1l : (List.insertionSort nameLe l').Perm l := p1.trans hperm
  have p12 : (List.insertionSort nameLe l').Perm (List.insertionSort seqLe l) :=
    p1l.trans p2.symm
  have hb1 : ∀ c ∈ List.insertionSort nameLe l', c.seq < 1000 :=
    fun c hc => hbound c (p1l.mem_iff.mp hc)
  have hne1 : (List.insertionSort nameLe l').Pairwise (fun a b : Chunk => a.seq ≠ b.seq) :=
    (List.Perm.pairwise_iff (fun h => h.symm) p1l).mpr hseqne
  have hne2 : (List.insertionSort seqLe l).Pairwise (fun a b : Chunk => a.seq ≠ b.seq) :=
    (List.Perm.pairwise_iff (fun h => h.symm) p2).mpr hseqne
  have hs1 : (List.insertionSort nameLe l').Pairwise nameLe :=
    List.sorted_insertionSort nameLe l'
  have hs2 : (List.insertionSort seqLe l).Pairwise seqLe :=
    List.sorted_insertionSort seqLe l
  have hlt1 : (List.insertionSort nameLe l').Pairwise (fun a b : Chunk => a.seq < b.seq) := by
    refine List.Pairwise.imp_of_mem ?_ (hs1.and hne1)
    intro a b ha hb h
    have hle : a.seq ≤ b.seq :=
      (chunkName_le_iff a.seq b.seq (hb1 a ha) (hb1 b hb)).mp h.1
    exact lt_of_le_of_ne hle h.2
  have hlt2 : (List.insertionSort seqLe l).Pairwise (fun a b : Chunk => a.seq < b.seq) := by
    refine List.Pairwise.imp_of_mem ?_ (hs2.and hne2)
    intro a b _ _ h
    exact lt_of_le_of_ne h.1 h.2
  haveI : IsAntisymm Chunk (fun a b : Chunk => a.seq < b.seq) :=
    ⟨fun _ _ h1 h2 => absurd h2 (Nat.lt_asymm h1)⟩
  have hsort : List.insertionSort nameLe l' = List.insertionSort seqLe l :=
    List.eq_of_perm_of_sorted p12 hlt1 hlt2
  unfold combineChunks combineBySeq
  rw [hsort]

/-- Witness for C1 (amended): two chunks arriving out of order are combined
in ascending sequence order. -/
theorem combineChunks_amended_witness :
    combineChunks [⟨2, [9]⟩, ⟨1, [7]⟩] = combineBySeq [⟨1, [7]⟩, ⟨2, [9]⟩] ∧
    combineBySeq [⟨1, [7]⟩, ⟨2, [9]⟩] = [7, 9] :=
  ⟨combineChunks_amended [Chunk.mk 1 [7], Chunk.mk 2 [9]] [Chunk.mk 2 [9], Chunk.mk 1 [7]]
    (List.Perm.swap (Chunk.mk 1 [7]) (Chunk.mk 2 [9]) []) (by decide) (by decide), by decide⟩

theorem buildWordsAux_labels_some (ws : List Word) :
    ∀ (t : Nat) (acc : String) (labs : List String),
      (∀ w ∈ ws, w.speakerTag ≠ 0) →
      (buildWordsAux (some t) acc labs ws).2.2
        = labs ++ (runHeadsFrom t (ws.map Word.speakerTag)).map spkLabel := by
  induction ws with
  | nil => intro t acc labs _; simp [buildWordsAux, runHeadsFrom]
  | cons w ws ih =>
    intro t acc labs h
    have hw : w.speakerTag ≠ 0 := h w (by simp)
    have hws : ∀ x ∈ ws, x.speakerTag ≠ 0 := fun x hx => h x (by simp [hx])
    by_cases htag : w.speakerTag = t
    · have hcond : ¬ (w.speakerTag ≠ 0 ∧ some w.speakerTag ≠ some t) := by
        simp [htag]
      simp only [buildWordsAux, if_neg hcond]
      rw [ih t _ labs hws]
      simp [runHeadsFrom, htag]
    · have hcond : w.speakerTag ≠ 0 ∧ some w.speakerTag ≠ some t :=
        ⟨hw, by simp [htag]⟩
      simp only [buildWordsAux, if_pos hcond]
      rw [ih w.speakerTag _ _ hws]
      simp [runHeadsFrom, htag, List.append_assoc]

theorem emittedLabels_eq_runHeads (ws : List Word)
    (h : ∀ w ∈ ws, w.speakerTag ≠ 0) :
    emittedLabels ws = (runHeads (ws.map Word.speakerTag)).map spkLabel := by
  cases ws with
  | nil => rfl
  | cons w ws =>
    have hw : w.speakerTag ≠ 0 := h w (by simp)
    have hws : ∀ x ∈ ws, x.speakerTag ≠ 0 := fun x hx => h x (by simp [hx])
    unfold emittedLabels
    simp only [buildWordsAux, if_pos (show w.speakerTag ≠ 0 ∧ some w.speakerTag ≠ none from
      ⟨hw, by simp⟩)]
    rw [buildWordsAux_labels_some ws w.speakerTag _ _ hws]
    simp [runHeads]

/-- Claim C2, counterexample: the renderer labels by tag value (`tag === 1`
maps to Doctor), not by first-seen tag: a word sequence whose first-seen
tag is 2 is labelled Patient, not Doctor. -/
theorem speakerLabel_first_seen_cex :
    emittedLabels [⟨"hello", 2⟩] = ["Patient"] ∧
    transcriptOfResults [⟨[⟨"hello", 2⟩]⟩] = "Patient: hello" ∧
    emittedLabels [⟨"hello", 2⟩] ≠ ["Doctor"] :=
  ⟨by decide, by decide, by decide⟩

/-- Claim C2 (amended): the renderer maps tag 1 to "Doctor" and every other
nonzero tag to "Patient", emitting one label per contiguous run of the same
tag; for the tag sequence [1,1,2,2,1] exactly the three labels Doctor,
Patient, Doctor are emitted, in that order. -/
theorem speakerLabel_amended :
    (∀ ws : List Word, (∀ w ∈ ws, w.speakerTag ≠ 0) →
      emittedLabels ws = (runHeads (ws.map Word.speakerTag)).map spkLabel) ∧
    spkLabel 1 = "Doctor" ∧ (∀ t : Nat, t ≠ 1 → spkLabel t = "Patient") ∧
    runHeads [1, 1, 2, 2, 1] = [1, 2, 1] ∧
    emittedLabels [⟨"a", 1⟩, ⟨"b", 1⟩, ⟨"c", 2⟩, ⟨"d", 2⟩, ⟨"e", 1⟩]
      = ["Doctor", "Patient", "Doctor"] ∧
    transcriptOfResults [⟨[⟨"a", 1⟩, ⟨"b", 1⟩, ⟨"c", 2⟩, ⟨"d", 2⟩, ⟨"e", 1⟩]⟩]
      = "Doctor: a b Patient: c d Doctor: e" :=
  ⟨emittedLabels_eq_runHeads, rfl, fun t ht => by simp [spkLabel, ht],
   by decide, by decide, by decide⟩

/-- Witness for C2 (amended) at a concrete word sequence. -/
theorem speakerLabel_amended_witness :
    emittedLabels [⟨"x", 2⟩, ⟨"y", 1⟩]
      = (runHeads (List.map Word.speakerTag [⟨"x", 2⟩, ⟨"y", 1⟩])).map spkLabel ∧
    spkLabel 3 = "Patient" :=
  ⟨speakerLabel_amended.1 [Word.mk "x" 2, Word.mk "y" 1] (by decide),
   speakerLabel_amended.2.2.1 3 (by decide)⟩

theorem collapseWs_no_nl : ∀ l : List Char, '\n' ∉ collapseWs l
  | [] => by simp [collapseWs]
  | [c] => by
    by_cases h : isWsChar c = true
    · simp [collapseWs, h]
    · simp only [collapseWs, if_neg h]
      intro hm
      rw [List.mem_singleton] at hm
      exact h (hm ▸ rfl)
  | a :: b :: rest => by
    by_cases h : (isWsChar a && isWsChar b) = true
    · simp only [collapseWs, if_pos h]
      exact collapseWs_no_nl (b :: rest)
    · simp only [collapseWs, if_neg h]
      intro hm
      rcases List.mem_cons.mp hm with hm | hm
      · by_cases ha : isWsChar a = true
        · rw [if_pos ha] at hm; exact absurd hm.symm (by decide)
        · rw [if_neg ha] at hm; exact ha (hm ▸ rfl)
      · exact collapseWs_no_nl (b :: rest) hm

theorem replaceNlRunsAux_id : ∀ (fuel : Nat) (l : List Char),
    '\n' ∉ l → replaceNlRunsAux fuel l = l
  | 0, _, _ => rfl
  | _ + 1, [], _ => rfl
  | fuel + 1, c :: cs, h => by
    have hc : ¬ c = '\n' := fun e => h (by simp [e])
    simp only [replaceNlRunsAux, if_neg hc]
    rw [replaceNlRunsAux_id fuel cs (fun m => h (List.mem_cons_of_mem _ m))]

theorem mem_trimChars {c : Char} {l : List Char} (h : c ∈ trimChars l) : c ∈ l := by
  unfold trimChars at h
  rw [List.mem_reverse] at h
  have h1 : c ∈ (l.dropWhile isWsChar).reverse :=
    (List.dropWhile_sublist isWsChar).mem h
  rw [List.mem_reverse] at h1
  exact (List.dropWhile_sublist isWsChar).mem h1

theorem cleanTranscript_no_nl (s : String) : '\n' ∉ (cleanTranscript s).data := by
  intro h
  have hcw := collapseWs_no_nl s.data
  have hdata : (cleanTranscript s).data = trimChars (replaceNlRuns (collapseWs s.data)) := rfl
  rw [hdata] at h
  rw [replaceNlRuns, replaceNlRunsAux_id _ _ hcw] at h
  exact hcw (mem_trimChars h)

/-- Claim C5: the cleanup collapses every whitespace run, including the
single line breaks separating speaker runs, to one space, contradicting the
stated "single line breaks preserved" normalisation: the cleaned transcript
never contains a line break at all.  At the shown input the line break
between the Doctor and Patient runs becomes a space. -/
theorem cleanTranscript_newline_bug :
    cleanTranscript "Doctor: hello \nPatient: hi \n" = "Doctor: hello Patient: hi" ∧
    '\n' ∈ "Doctor: hello \nPatient: hi \n".data ∧
    ∀ s : String, '\n' ∉ (cleanTranscript s).data :=
  ⟨by decide, by decide, cleanTranscript_no_nl⟩

theorem strAppend_assoc (a b c : String) : a ++ b ++ c = a ++ (b ++ c) := by
  apply String.ext
  simp [String.data_append]

theorem generateFallbackSummary_shape (t : String) :
    ∃ c1 c2 c3 : String,
      generateFallbackSummary t =
        "# Medical Consultation Summary\n\n"
          ++ ("## " ++ "Chief Complaint" ++ "\n" ++ c1 ++ "\n\n")
          ++ ("## " ++ "Assessment" ++ "\n" ++ c2 ++ "\n\n")
          ++ ("## " ++ "Plan" ++ "\n" ++ c3 ++ "\n\n") := by
  refine ⟨(if extractSection t ["chief complaint", "reason for visit", "what brings you"] = ""
      then "Not specified"
      else extractSection t ["chief complaint", "reason for visit", "what brings you"]),
    (if extractSection t ["assessment", "diagnosis", "condition"] = ""
      then "Not specified"
      else extractSection t ["assessment", "diagnosis", "condition"]),
    (if extractSection t ["plan", "recommendation", "follow up", "prescription"] = ""
      then "Not specified"
      else extractSection t ["plan", "recommendation", "follow up", "prescription"]), ?_⟩
  unfold generateFallbackSummary fallbackSections
  simp only [List.foldl]

theorem containsStr_of_shape (pre post : String) {s sub : String}
    (h : s = pre ++ sub ++ post) : containsStr s sub := ⟨pre, post, h⟩

theorem generateFallbackSummary_sections (t : String) :
    containsStr (generateFallbackSummary t) "Chief Complaint" ∧
    containsStr (generateFallbackSummary t) "Assessment" ∧
    containsStr (generateFallbackSummary t) "Plan" ∧
    generateFallbackSummary t ≠ "" := by
  obtain ⟨c1, c2, c3, hs⟩ := generateFallbackSummary_shape t
  refine ⟨?_, ?_, ?_, ?_⟩
  · refine containsStr_of_shape ("# Medical Consultation Summary\n\n" ++ "## ")
      ("\n" ++ c1 ++ "\n\n"
        ++ ("## " ++ "Assessment" ++ "\n" ++ c2 ++ "\n\n")
        ++ ("## " ++ "Plan" ++ "\n" ++ c3 ++ "\n\n")) ?_
    rw [hs]; apply String.ext; simp [String.data_append, List.append_assoc]
  · refine containsStr_of_shape ("# Medical Consultation Summary\n\n"
      ++ ("## " ++ "Chief Complaint" ++ "\n" ++ c1 ++ "\n\n") ++ "## ")
      ("\n" ++ c2 ++ "\n\n" ++ ("## " ++ "Plan" ++ "\n" ++ c3 ++ "\n\n")) ?_
    rw [hs]; apply String.ext; simp [String.data_append, List.append_assoc]
  · refine containsStr_of_shape ("# Medical Consultation Summary\n\n"
      ++ ("## " ++ "Chief Complaint" ++ "\n" ++ c1 ++ "\n\n")
      ++ ("## " ++ "Assessment" ++ "\n" ++ c2 ++ "\n\n") ++ "## ")
      ("\n" ++ c3 ++ "\n\n") ?_
    rw [hs]; apply String.ext; simp [String.data_append, List.append_assoc]
  · intro hempty
    rw [hs] at hempty
    have hdata := congrArg String.data hempty
    simp [String.data_append] at hdata

/-- Claim C3: on every failure of the generative client the summarise step
returns the rule-based fallback (never raising, never empty), which
contains the three configured section headers; if even the fallback fails,
the fixed message directing the reader to the transcript is returned. -/
theorem summarize_fallback (transcript e : String) :
    generateMedicalSummary transcript (.error e) false = generateFallbackSummary transcript ∧
    generateMedicalSummary transcript (.error e) true = failedSummaryMessage ∧
    (∀ b : Bool, generateMedicalSummary transcript (.error e) b ≠ "") ∧
    containsStr (generateFallbackSummary transcript) "Chief Complaint" ∧
    containsStr (generateFallbackSummary transcript) "Assessment" ∧
    containsStr (generateFallbackSummary transcript) "Plan" := by
  obtain ⟨h1, h2, h3, h4⟩ := generateFallbackSummary_sections transcript
  refine ⟨rfl, rfl, ?_, h1, h2, h3⟩
  intro b
  cases b
  · simpa [generateMedicalSummary] using h4
  · simp [generateMedicalSummary, failedSummaryMessage]

theorem cacheSet_ok (res : Except String Unit) : cacheSet res = .ok () := by
  cases res <;> rfl

/-- Claim C4: a failure while deleting the temporary local file or the
staging object (or writing the cache) never changes the pipeline's result;
the staging delete produces the same bucket state on the success and the
failure path of the transcription stage; and with a working delete the
staging object is gone even when transcription fails. -/
theorem cleanup_absorbed (env : PipeEnv) (gcs : List String) (stagingName : String)
    (localFiles : List String) (b1 b2 : Bool) (cres : Except String Unit) :
    (processTranscription
        { env with localDeleteFails := b1, gcsDeleteFails := b2, cacheClientRes := cres }
        gcs stagingName localFiles).1
      = (processTranscription env gcs stagingName localFiles).1 ∧
    (∀ (g : List String) (n : String) (r r' : Except String (List SpeechResult)) (b : Bool),
      (transcribeAudioWithMedicalContext g n r b).2
        = (transcribeAudioWithMedicalContext g n r' b).2) ∧
    (∀ (g : List String) (n : String) (r : Except String (List SpeechResult)),
      n ∉ (transcribeAudioWithMedicalContext g n r false).2) := by
  refine ⟨?_, fun _ _ _ _ _ => rfl, ?_⟩
  · obtain ⟨f, o, u, sp, v, fb, sv, ld, gd, cc⟩ := env
    cases f with
    | error e => rfl
    | ok a =>
      cases o with
      | error e => rfl
      | ok p =>
        cases u with
        | error e => rfl
        | ok _ =>
          simp only [processTranscription, transcribeAudioWithMedicalContext]
          cases transcribeBody sp with
          | error e => rfl
          | ok t =>
            cases sv with
            | error e => rfl
            | ok _ =>
              rw [cacheSet_ok cres, cacheSet_ok cc]
  · intro g n r
    simp [transcribeAudioWithMedicalContext, gcsDelete, List.mem_filter]

/-- Claim C6: a non-folder object is never deleted via the folder-delete
path — the store is unchanged and the object still exists — and the delete
call is issued only when the type check confirmed a folder. -/
theorem deleteFolder_guard (st : List DObj) (folderId : String) :
    (∀ o, filesGet st folderId = some o → o.mimeType ≠ folderMime →
      deleteFolder st folderId = (st, false) ∧
      filesGet (deleteFolder st folderId).1 folderId = some o) ∧
    ((deleteFolder st folderId).2 = true →
      ∃ o, filesGet st folderId = some o ∧ o.mimeType = folderMime) := by
  constructor
  · intro o ho hmime
    have hd : deleteFolder st folderId = (st, false) := by
      unfold deleteFolder
      rw [ho]
      simp [hmime]
    exact ⟨hd, by rw [hd]; exact ho⟩
  · intro h
    unfold deleteFolder at h
    cases ho : filesGet st folderId with
    | none => rw [ho] at h; simp at h
    | some o =>
      rw [ho] at h
      by_cases hm : o.mimeType = folderMime
      · exact ⟨o, rfl, hm⟩
      · rw [show (match some o with
            | none => (st, false)
            | some o => if o.mimeType ≠ folderMime then (st, false)
                else (List.filter (fun x => x.id != folderId) st, true))
            = (st, false) from by simp [hm]] at h
        simp at h

/-- Witness for C6 at a one-object store holding a plain file. -/
theorem deleteFolder_guard_witness :
    deleteFolder [DObj.mk "x" "text/plain"] "x" = ([DObj.mk "x" "text/plain"], false) ∧
    filesGet (deleteFolder [DObj.mk "x" "text/plain"] "x").1 "x"
      = some (DObj.mk "x" "text/plain") :=
  (deleteFolder_guard [DObj.mk "x" "text/plain"] "x").1
    (DObj.mk "x" "text/plain") (by decide) (by decide)

theorem digitChar_isDigit : ∀ i < 10, (Nat.digitChar i).isDigit = true := by decide

theorem natDigitsAux_digits :
    ∀ (fuel n : Nat), ∀ c ∈ natDigitsAux fuel n, c.isDigit = true := by
  intro fuel
  induction fuel with
  | zero => intro n c hc; simp [natDigitsAux] at hc
  | succ f ih =>
    intro n c hc
    by_cases h : n < 10
    · simp only [natDigitsAux, if_pos h] at hc
      rw [List.mem_singleton] at hc
      exact hc ▸ digitChar_isDigit n h
    · simp only [natDigitsAux, if_neg h] at hc
      rcases List.mem_append.mp hc with hc | hc
      · exact ih (n / 10) c hc
      · rw [List.mem_singleton] at hc
        exact hc ▸ digitChar_isDigit (n % 10) (Nat.mod_lt n (by omega))

theorem natDigits_no_dash (n : Nat) : ∀ c ∈ natDigits n, c ≠ '-' := by
  intro c hc he
  have := natDigitsAux_digits (n + 1) n c hc
  rw [he] at this
  exact absurd this (by decide)

theorem digitChar_toNat : ∀ i < 10, (Nat.digitChar i).toNat = 48 + i := by decide

theorem valOfDigits_append (xs : List Char) (c : Char) :
    valOfDigits (xs ++ [c]) = valOfDigits xs * 10 + (c.toNat - 48) := by
  unfold valOfDigits
  rw [List.foldl_append]
  rfl

theorem valOfDigits_natDigitsAux :
    ∀ (fuel n : Nat), n < fuel → valOfDigits (natDigitsAux fuel n) = n := by
  intro fuel
  induction fuel with
  | zero => intro n h; omega
  | succ f ih =>
    intro n h
    by_cases hn : n < 10
    · simp only [natDigitsAux, if_pos hn]
      unfold valOfDigits
      simp only [List.foldl]
      rw [digitChar_toNat n hn]
      omega
    · simp only [natDigitsAux, if_neg hn]
      rw [valOfDigits_append]
      have hdiv : n / 10 < n := Nat.div_lt_self (by omega) (by omega)
      rw [ih (n / 10) (by omega)]
      rw [digitChar_toNat (n % 10) (Nat.mod_lt n (by omega))]
      omega

theorem natDigits_inj {m n : Nat} (h : natDigits m = natDigits n) : m = n := by
  have hm := valOfDigits_natDigitsAux (m + 1) m (by omega)
  have hn := valOfDigits_natDigitsAux (n + 1) n (by omega)
  unfold natDigits at h
  rw [h] at hm
  omega

/-- In `a ++ '-' :: d1 = b ++ '-' :: d2` with dash-free tails, the parts
agree (the first dash after a dash-free tail is a unique separator). -/
theorem dashfree_middle_inj : ∀ (a b d1 d2 : List Char),
    (∀ c ∈ d1, c ≠ '-') → (∀ c ∈ d2, c ≠ '-') →
    a ++ '-' :: d1 = b ++ '-' :: d2 → a = b ∧ d1 = d2
  | [], [], d1, d2, _, _, h => by
    simp only [List.nil_append] at h
    exact ⟨rfl, (List.cons.injEq _ _ _ _ ▸ h).2⟩
  | [], y :: b, d1, d2, h1, _, h => by
    simp only [List.nil_append, List.cons_append, List.cons.injEq] at h
    exact absurd (h.2 ▸ List.mem_append_right b (List.mem_cons_self '-' d2))
      (fun hm => h1 '-' hm rfl)
  | x :: a, [], d1, d2, _, h2, h => by
    simp only [List.nil_append, List.cons_append, List.cons.injEq] at h
    exact absurd (h.2.symm ▸ List.mem_append_right a (List.mem_cons_self '-' d1))
      (fun hm => h2 '-' hm rfl)
  | x :: a, y :: b, d1, d2, h1, h2, h => by
    simp only [List.cons_append, List.cons.injEq] at h
    have ht := dashfree_middle_inj a b d1 d2 h1 h2 h.2
    exact ⟨by rw [h.1, ht.1], ht.2⟩

theorem stagingKey_data (r : String) (t : Nat) :
    (stagingKey r t).data
      = "transcription-".data ++ (r.data ++ '-' :: (natDigits t ++ ".flac".data)) := by
  unfold stagingKey natToString
  simp [String.data_append, List.append_assoc]

theorem stagingKey_parts {r1 r2 : String} {t1 t2 : Nat}
    (h : stagingKey r1 t1 = stagingKey r2 t2) :
    r1 = r2 ∧ t1 = t2 := by
  have hd := congrArg String.data h
  rw [stagingKey_data, stagingKey_data] at hd
  have hm := List.append_cancel_left hd
  have hfree1 : ∀ c ∈ natDigits t1 ++ ".flac".data, c ≠ '-' := by
    intro c hc
    rcases List.mem_append.mp hc with hc | hc
    · exact natDigits_no_dash t1 c hc
    · intro he; subst he; revert hc; decide
  have hfree2 : ∀ c ∈ natDigits t2 ++ ".flac".data, c ≠ '-' := by
    intro c hc
    rcases List.mem_append.mp hc with hc | hc
    · exact natDigits_no_dash t2 c hc
    · intro he; subst he; revert hc; decide
  have hsplit := dashfree_middle_inj r1.data r2.data _ _ hfree1 hfree2 hm
  refine ⟨String.ext hsplit.1, ?_⟩
  exact natDigits_inj (List.append_cancel_right hsplit.2)

/-- Claim C7: staging keys for distinct recordings never collide, whatever
the timestamps; and two keys for the same recording at distinct timestamps
are distinct. -/
theorem stagingKey_distinct :
    (∀ (r1 r2 : String) (t1 t2 : Nat), r1 ≠ r2 → stagingKey r1 t1 ≠ stagingKey r2 t2) ∧
    (∀ (r : String) (t1 t2 : Nat), t1 ≠ t2 → stagingKey r t1 ≠ stagingKey r t2) :=
  ⟨fun _ _ _ _ hne h => hne (stagingKey_parts h).1,
   fun _ _ _ hne h => hne (stagingKey_parts h).2⟩

/-- Witness for C7: distinct recordings, and distinct retry timestamps,
give distinct keys. -/
theorem stagingKey_distinct_witness :
    stagingKey "rec-1" 5 ≠ stagingKey "rec" 15 ∧
    stagingKey "rec" 5 ≠ stagingKey "rec" 6 :=
  ⟨stagingKey_distinct.1 "rec-1" "rec" 5 15 (by decide),
   stagingKey_distinct.2 "rec" 5 6 (by decide)⟩

theorem cacheGet_isOk (clientRes : Except String (Option String))
    (parse : String → Except String String) :
    ∃ o, cacheGet clientRes parse = .ok o := by
  cases clientRes with
  | error e => exact ⟨none, rfl⟩
  | ok v =>
    cases v with
    | none => exact ⟨none, rfl⟩
    | some s =>
      by_cases h : s = ""
      · exact ⟨none, by simp [cacheGet, h]⟩
      · cases hp : parse s with
        | ok x => exact ⟨some x, by simp [cacheGet, h, hp]⟩
        | error e => exact ⟨none, by simp [cacheGet, h, hp]⟩

/-- Claim C8: a failing cache client is invisible to callers: `get` returns
null, `increment` returns 0, `setNX` returns false, `set`, `delete` and
`deletePattern` return normally, and `getOrSet` still yields the factory's
value — no operation propagates the client failure. -/
theorem cache_failures_degrade (e e' : String) (parse : String → Except String String)
    (v : String) (delRes : Except String Unit) :
    cacheGet (.error e) parse = .ok none ∧
    cacheSet (.error e) = .ok () ∧
    cacheDelete (.error e) = .ok () ∧
    cacheDeletePattern (.error e) delRes = .ok () ∧
    cacheIncrement (.error e) = .ok 0 ∧
    setNX (.error e) = .ok false ∧
    getOrSet (.error e) parse (.ok v) (.error e') = .ok v ∧
    (∀ (gres : Except String (Option String)) (sres : Except String Unit),
      ∃ w, getOrSet gres parse (.ok v) sres = .ok w) := by
  refine ⟨rfl, rfl, rfl, rfl, rfl, rfl, rfl, ?_⟩
  intro gres sres
  obtain ⟨o, ho⟩ := cacheGet_isOk gres parse
  unfold getOrSet
  rw [ho]
  cases o with
  | none => rw [cacheSet_ok sres]; exact ⟨v, rfl⟩
  | some w => exact ⟨w, rfl⟩

theorem redisGet_redisDel (st : List (String × String)) (k : String) :
    redisGet (redisDel st k) k = none := by
  unfold redisGet redisDel
  rw [List.find?_eq_none.mpr]
  · rfl
  · intro kv hkv
    have hne := (List.mem_filter.mp hkv).2
    simp only [bne_iff_ne, ne_eq] at hne
    simp [hne]

/-- Claim C9: `releaseLock` deletes the lock key iff the stored value
equals the given lock id; on a mismatch the store is untouched and false is
returned; after a successful release the key is gone. -/
theorem releaseLock_compare_and_delete (st : List (String × String))
    (lockName lockId : String) :
    ((releaseLock st lockName lockId).2 = true ↔
      redisGet st ("lock:" ++ lockName) = some lockId) ∧
    (redisGet st ("lock:" ++ lockName) ≠ some lockId →
      (releaseLock st lockName lockId).1 = st ∧
      (releaseLock st lockName lockId).2 = false) ∧
    ((releaseLock st lockName lockId).2 = true →
      redisGet (releaseLock st lockName lockId).1 ("lock:" ++ lockName) = none) := by
  by_cases hmatch : redisGet st ("lock:" ++ lockName) = some lockId
  · have hrel : releaseLock st lockName lockId
        = (redisDel st ("lock:" ++ lockName), true) := by
      unfold releaseLock releaseScript
      rw [hmatch]
      simp
    refine ⟨?_, ?_, ?_⟩
    · rw [hrel]; exact ⟨fun _ => hmatch, fun _ => rfl⟩
    · intro h; exact absurd hmatch h
    · intro _; rw [hrel]; exact redisGet_redisDel st ("lock:" ++ lockName)
  · have hrel : releaseLock st lockName lockId = (st, false) := by
      unfold releaseLock releaseScript
      cases hg : redisGet st ("lock:" ++ lockName) with
      | none => simp
      | some v =>
        have hv : v ≠ lockId := fun e => hmatch (by rw [hg, e])
        simp [hv]
    refine ⟨?_, ?_, ?_⟩
    · rw [hrel]
      exact ⟨fun h => absurd h (by simp), fun h => absurd h hmatch⟩
    · intro _; rw [hrel]; exact ⟨rfl, rfl⟩
    · intro h; rw [hrel] at h; exact absurd h (by simp)

/-- Witness for C9: a non-holder's release leaves the store unchanged and
returns false. -/
theorem releaseLock_witness :
    redisGet [("lock:a", "v")] ("lock:" ++ "a") ≠ some "w" ∧
    (releaseLock [("lock:a", "v")] "a" "w").1 = [("lock:a", "v")] ∧
    (releaseLock [("lock:a", "v")] "a" "w").2 = false :=
  have h : redisGet [("lock:a", "v")] ("lock:" ++ "a") ≠ some "w" := by decide
  ⟨h, ((releaseLock_compare_and_delete [("lock:a", "v")] "a" "w").2.1 h).1,
   ((releaseLock_compare_and_delete [("lock:a", "v")] "a" "w").2.1 h).2⟩

/-- Claim C10, counterexample: when nothing is found the caller does not
see a `Results not found` error — the outer handler replaces it with
`Failed to retrieve results`. -/
theorem getRecordingResults_message_cex :
    getRecordingResults [] [] [] false = .error "Failed to retrieve results" ∧
    "Failed to retrieve results" ≠ "Results not found" :=
  ⟨rfl, by decide⟩

/-- Claim C10 (amended): `getRecordingResults` never returns a result with
both artifacts empty — every such case, and every retrieval failure, is
surfaced as an error whose message the outer handler sets to `Failed to
retrieve results`; a found artifact is returned as is. -/
theorem getRecordingResults_amended :
    (∀ (children resultsChildren audioChildren : List DFile) (innerFail : Bool),
      getRecordingResults children resultsChildren audioChildren innerFail
          = .error "Failed to retrieve results" ∨
      (∃ r : RecResult,
        getRecordingResults children resultsChildren audioChildren innerFail = .ok r ∧
        (r.transcript ≠ "" ∨ r.summary ≠ ""))) ∧
    getRecordingResults [DFile.mk "rf" "results" folderMime ""]
        [DFile.mk "f1" "transcript-1.txt" "text/plain" "hello"] [] false
      = .ok (RecResult.mk "hello" "" none none) := by
  constructor
  · intro children resultsChildren audioChildren innerFail
    unfold getRecordingResults getRecordingResultsTry checkResults
    by_cases h : (if innerFail then RecResult.mk "" "" none none
        else gRRBody children resultsChildren audioChildren).transcript = "" ∧
        (if innerFail then RecResult.mk "" "" none none
        else gRRBody children resultsChildren audioChildren).summary = ""
    · rw [if_pos h]
      exact Or.inl rfl
    · rw [if_neg h]
      exact Or.inr ⟨_, rfl, not_and_or.mp h⟩
  · rfl

end ScribeBot
